import Mathlib

/-!
A shallow embedding of the macro recorder/player engine of
TinyTaskMacOS-OpenSource, together with theorems settling the spec's
claims about it.

Modelling conventions:
* Python `float` timestamps and durations are modelled as exact
  rationals (`Rat`); the literal `1e-6` of the source is modelled as
  `1/1000000`.
* A Python `dict` event payload (`Event.data : Dict[str, Any]`) is
  modelled as an association list of string keys and JSON-style values.
* pynput key objects are modelled by `PKey`: either a literal character
  key (pynput accepts the raw one-character string that
  `str_to_key "char:…"` returns) or a member of the `keyboard.Key`
  enumeration, modelled by `KeyName`.
* The wall clock (`time.perf_counter`) is passed to each operation as an
  explicit instant; stateful objects become explicit state records.
-/

/-- A JSON-representable scalar, as stored in an event's `data` dict. -/
inductive JVal
  | jint (n : Int)
  | jstr (s : String)
  | jbool (b : Bool)
deriving DecidableEq, Repr

/-- `Event.data : Dict[str, Any]` from models.py, as an association list. -/
abbrev EventData := List (String × JVal)

/-- Python `d[k]` / `d.get(k)` lookup on an event payload. -/
def EventData.get? (d : EventData) (k : String) : Option JVal :=
  (d.find? (fun p => p.1 == k)).map Prod.snd

/-- models.py `Event`: a timestamped input event. -/
structure Event where
  t : Rat
  kind : String
  data : EventData
deriving DecidableEq, Repr

/-- models.py `Macro`: an ordered list of events. -/
structure Macro where
  events : List Event
deriving DecidableEq, Repr

/-- The members of pynput's `keyboard.Key` enumeration that this
development needs (function keys as used by the UI bindings and the
recorder's ignore set, plus the common named keys). -/
inductive KeyName
  | f1 | f2 | f3 | f4 | f5 | f6 | f7 | f8 | f9 | f10
  | f11 | f12 | f13 | f14 | f15 | f16 | f17 | f18 | f19
  | esc | space | shift | cmd | ctrl | alt | enter | tab | backspace
deriving DecidableEq, Repr

/-- pynput's `Key.<member>.name` attribute. -/
def KeyName.name : KeyName → String
  | .f1 => "f1" | .f2 => "f2" | .f3 => "f3" | .f4 => "f4" | .f5 => "f5"
  | .f6 => "f6" | .f7 => "f7" | .f8 => "f8" | .f9 => "f9" | .f10 => "f10"
  | .f11 => "f11" | .f12 => "f12" | .f13 => "f13" | .f14 => "f14"
  | .f15 => "f15" | .f16 => "f16" | .f17 => "f17" | .f18 => "f18"
  | .f19 => "f19"
  | .esc => "esc" | .space => "space" | .shift => "shift" | .cmd => "cmd"
  | .ctrl => "ctrl" | .alt => "alt" | .enter => "enter" | .tab => "tab"
  | .backspace => "backspace"

/-- Python `keyboard.Key[name]` dictionary lookup (KeyError becomes
`none`). -/
def keyName? (s : String) : Option KeyName :=
  if s = "f1" then some .f1 else if s = "f2" then some .f2
  else if s = "f3" then some .f3 else if s = "f4" then some .f4
  else if s = "f5" then some .f5 else if s = "f6" then some .f6
  else if s = "f7" then some .f7 else if s = "f8" then some .f8
  else if s = "f9" then some .f9 else if s = "f10" then some .f10
  else if s = "f11" then some .f11 else if s = "f12" then some .f12
  else if s = "f13" then some .f13 else if s = "f14" then some .f14
  else if s = "f15" then some .f15 else if s = "f16" then some .f16
  else if s = "f17" then some .f17 else if s = "f18" then some .f18
  else if s = "f19" then some .f19
  else if s = "esc" then some .esc else if s = "space" then some .space
  else if s = "shift" then some .shift else if s = "cmd" then some .cmd
  else if s = "ctrl" then some .ctrl else if s = "alt" then some .alt
  else if s = "enter" then some .enter else if s = "tab" then some .tab
  else if s = "backspace" then some .backspace
  else none

/-- A pynput key value as the engine handles it: a literal character key
(a `KeyCode` whose `char` is set; `str_to_key` reconstructs it as the
raw string) or a named `keyboard.Key` member. -/
inductive PKey
  | chr (s : String)
  | named (k : KeyName)
deriving DecidableEq, Repr

/-- utils.py `key_to_str`: serialize a pynput key/char to a stable
string (`"char:<c>"` for character keys, `"key:<name>"` for named
keys). -/
def key_to_str : PKey → String
  | .chr s => "char:" ++ s
  | .named k => "key:" ++ k.name

/-- Python `s.startswith(p)`, computed on the character lists. -/
def strStartsWith (s p : String) : Bool := p.data.isPrefixOf s.data

/-- Python slicing `s[n:]` by character count, computed on the character
list. -/
def strDrop (s : String) (n : Nat) : String := ⟨s.data.drop n⟩

/-- utils.py `str_to_key`: deserialize a string back to a pynput
key/char; `none` when unknown.  `s.split(":", 1)[1]` is everything past
the first colon, i.e. `strDrop 5` after a `"char:"` prefix and
`strDrop 4` after a `"key:"` prefix. -/
def str_to_key (s : String) : Option PKey :=
  if strStartsWith s "char:" then some (.chr (strDrop s 5))
  else if strStartsWith s "key:" then
    let name := strDrop s 4
    match keyName? name with
    | some k => some (.named k)
    | none =>
      if strStartsWith name "Key." then
        match keyName? (strDrop name 4) with
        | some k => some (.named k)
        | none => none
      else none
  else none

/-- pynput `mouse.Button` (the three buttons the code handles). -/
inductive Button
  | left | right | middle
deriving DecidableEq, Repr

/-- utils.py `button_to_str`. -/
def button_to_str : Button → String
  | .left => "left"
  | .right => "right"
  | .middle => "middle"

/-- utils.py `str_to_button`: dictionary lookup with default
`Button.left` for any unknown string. -/
def str_to_button (s : String) : Button :=
  if s = "left" then .left
  else if s = "right" then .right
  else if s = "middle" then .middle
  else .left

/-- The event kinds produced by the recorder and dispatched on by the
player (`'move'/'click'/'scroll'/'kpress'/'krelease'`). -/
def recognized_kinds : List String :=
  ["move", "click", "scroll", "kpress", "krelease"]

/-! ## Serializer (ui.py `AppUI._save` / `AppUI._load`)

The saved document is `{"version": 1, "events": [asdict(e), …]}`; a
loaded document is parsed by
`Event(t=float(e["t"]), kind=e["kind"], data=e["data"])`, where a
missing dict key raises `KeyError`.  The document is modelled
field-by-field, with `Option` for possibly missing fields so that load
errors are expressible. -/

/-- One JSON object of the document's `events` array; each field may be
absent. -/
structure DocEvent where
  t? : Option Rat
  kind? : Option String
  data? : Option EventData
deriving DecidableEq, Repr

/-- The saved JSON document. -/
structure Doc where
  version : Int
  events : List DocEvent
deriving DecidableEq, Repr

/-- ui.py `_save` line 600: the payload built from the in-memory macro
(`asdict` copies `t`, `kind`, `data` verbatim). -/
def save_payload (m : Macro) : Doc :=
  { version := 1,
    events := m.events.map (fun e => ⟨some e.t, some e.kind, some e.data⟩) }

/-- ui.py `_load` line 612, for one event object:
`Event(t=float(e["t"]), kind=e["kind"], data=e["data"])`; a missing
required dict key raises `KeyError` (arguments are evaluated left to
right, so `t` is demanded first, then `kind`, then `data`). -/
def load_event (e : DocEvent) : Except String Event :=
  match e.t? with
  | none => .error "KeyError: t"
  | some t =>
    match e.kind? with
    | none => .error "KeyError: kind"
    | some kind =>
      match e.data? with
      | none => .error "KeyError: data"
      | some data => .ok ⟨t, kind, data⟩

/-- The list comprehension of ui.py `_load`: parse events in order,
aborting at the first error. -/
def load_events : List DocEvent → Except String (List Event)
  | [] => .ok []
  | e :: rest =>
    match load_event e with
    | .error msg => .error msg
    | .ok ev =>
      match load_events rest with
      | .error msg => .error msg
      | .ok evs => .ok (ev :: evs)

/-- ui.py `_load`: the macro a document parses to (or the error raised
while parsing it). -/
def load_macro_doc (d : Doc) : Except String Macro :=
  (load_events d.events).map Macro.mk

/-- ui.py `_load` as a step on the control surface's in-memory macro:
the event list comprehension runs in full before `_on_set_macro` is
called, so a parse error leaves the held macro unchanged and surfaces
as the raised exception. -/
def uiLoad (current : Macro) (d : Doc) : Macro × Option String :=
  match load_macro_doc d with
  | .error msg => (current, some msg)
  | .ok m => (m, none)

/-! ## Clock (utils.py `RecClock`)

`perf_counter` instants are passed explicitly; `now_rel` both returns a
value and may mutate the anchor (its auto-start branch). -/

/-- utils.py `RecClock`: relative clock anchored at `start()`. -/
structure RecClock where
  t0 : Option Rat
deriving DecidableEq, Repr

/-- `RecClock.start`: anchor at the current instant. -/
def RecClock.start (_c : RecClock) (now : Rat) : RecClock := ⟨some now⟩

/-- `RecClock.now_rel`: elapsed time since the anchor; if `start()` was
never called it auto-starts at the current instant (both
`perf_counter()` calls of that branch happen at the modelled instant,
so the value is `0`). -/
def RecClock.now_rel (c : RecClock) (now : Rat) : Rat × RecClock :=
  match c.t0 with
  | some a => (now - a, c)
  | none => (0, ⟨some now⟩)

/-! ## Recorder (recorder.py) -/

/-- recorder.py `Recorder.IGNORE_KEYS`: the hard-coded set of keys never
recorded. -/
def IGNORE_KEYS : List PKey :=
  [.named .f8, .named .f9, .named .f10, .named .f11, .named .esc]

/-- recorder.py `Recorder`: the mutable state of a recorder instance
(listener handles carry no engine state and are omitted). -/
structure Recorder where
  clock : RecClock
  move_min_interval : Rat
  last_move_t : Rat
  last_pos : Option (Int × Int)
  recording : Bool
  events : List Event
deriving DecidableEq, Repr

/-- recorder.py `Recorder.__init__` (with its `macro = Macro(events=[])`). -/
def Recorder.init (move_min_interval : Rat) : Recorder :=
  { clock := ⟨none⟩, move_min_interval, last_move_t := 0, last_pos := none,
    recording := false, events := [] }

/-- recorder.py `Recorder.start`: no-op when already recording, else
clear the macro, reset the clock and throttle state, set the flag. -/
def Recorder.start (r : Recorder) (now : Rat) : Recorder :=
  if r.recording then r
  else { r with events := [], clock := r.clock.start now,
                last_move_t := 0, last_pos := none, recording := true }

/-- recorder.py `Recorder.stop`. -/
def Recorder.stop (r : Recorder) : Recorder := { r with recording := false }

/-- recorder.py `Recorder._now` = `self.clock.now_rel()` (with the
clock's possible auto-start threaded through). -/
def Recorder.nowRel (r : Recorder) (now : Rat) : Rat × Recorder :=
  let p := r.clock.now_rel now
  (p.1, { r with clock := p.2 })

/-- The `data` dict of a recorded move event. -/
def moveData (x y : Int) : EventData := [("x", .jint x), ("y", .jint y)]

/-- recorder.py `Recorder._on_move`: drop the callback unless recording,
the elapsed time since `_last_move_t` reaches `move_min_interval`, and
the position changed; otherwise update the throttle state and append. -/
def Recorder.on_move (r : Recorder) (now : Rat) (x y : Int) : Recorder :=
  if !r.recording then r
  else
    let p := r.nowRel now
    let t := p.1
    let r := p.2
    if t - r.last_move_t < r.move_min_interval then r
    else if r.last_pos = some (x, y) then r
    else { r with last_move_t := t, last_pos := some (x, y),
                  events := r.events ++ [⟨t, "move", moveData x y⟩] }

/-- The `data` dict of a recorded click event. -/
def clickData (x y : Int) (button : Button) (pressed : Bool) : EventData :=
  [("x", .jint x), ("y", .jint y), ("button", .jstr (button_to_str button)),
   ("pressed", .jbool pressed)]

/-- recorder.py `Recorder._on_click`. -/
def Recorder.on_click (r : Recorder) (now : Rat) (x y : Int) (button : Button)
    (pressed : Bool) : Recorder :=
  if !r.recording then r
  else
    let p := r.nowRel now
    { p.2 with events :=
        p.2.events ++ [⟨p.1, "click", clickData x y button pressed⟩] }

/-- The `data` dict of a recorded scroll event. -/
def scrollData (x y dx dy : Int) : EventData :=
  [("x", .jint x), ("y", .jint y), ("dx", .jint dx), ("dy", .jint dy)]

/-- recorder.py `Recorder._on_scroll`. -/
def Recorder.on_scroll (r : Recorder) (now : Rat) (x y dx dy : Int) : Recorder :=
  if !r.recording then r
  else
    let p := r.nowRel now
    { p.2 with events := p.2.events ++ [⟨p.1, "scroll", scrollData x y dx dy⟩] }

/-- The `data` dict of a recorded key event. -/
def keyData (k : PKey) : EventData := [("key", .jstr (key_to_str k))]

/-- recorder.py `Recorder._on_key_press`: drop the key when not
recording or when it belongs to `IGNORE_KEYS`. -/
def Recorder.on_key_press (r : Recorder) (now : Rat) (k : PKey) : Recorder :=
  if !r.recording || IGNORE_KEYS.contains k then r
  else
    let p := r.nowRel now
    { p.2 with events := p.2.events ++ [⟨p.1, "kpress", keyData k⟩] }

/-- recorder.py `Recorder._on_key_release`. -/
def Recorder.on_key_release (r : Recorder) (now : Rat) (k : PKey) : Recorder :=
  if !r.recording || IGNORE_KEYS.contains k then r
  else
    let p := r.nowRel now
    { p.2 with events := p.2.events ++ [⟨p.1, "krelease", keyData k⟩] }

/-- One external stimulus to the recorder: a lifecycle call or an input
callback. -/
inductive RecOp
  | start
  | stop
  | move (x y : Int)
  | click (x y : Int) (button : Button) (pressed : Bool)
  | scroll (x y dx dy : Int)
  | kpress (k : PKey)
  | krelease (k : PKey)
deriving DecidableEq, Repr

/-- Dispatch one stimulus, tagged with the `perf_counter` instant at
which it is delivered. -/
def Recorder.step (r : Recorder) (now : Rat) : RecOp → Recorder
  | .start => r.start now
  | .stop => r.stop
  | .move x y => r.on_move now x y
  | .click x y b p => r.on_click now x y b p
  | .scroll x y dx dy => r.on_scroll now x y dx dy
  | .kpress k => r.on_key_press now k
  | .krelease k => r.on_key_release now k

/-- Run a timed trace of stimuli. -/
def Recorder.run (r : Recorder) : List (Rat × RecOp) → Recorder
  | [] => r
  | (now, op) :: rest => (r.step now op).run rest

/-! ## The monolithic script's move recording (MacOSTinyTask.py)

`on_move` there updates `_last_move_time` as soon as the time gate
passes, before the position check, so the throttle clock can advance on
a callback that records nothing.  Callbacks receive the value of
`_now_rel()` directly as the relative timestamp `t`. -/

/-- MacOSTinyTask.py module-level recording state (the parts `on_move`
touches). -/
structure TTRec where
  recording : Bool
  last_move_time : Rat
  last_move_pos : Option (Int × Int)
  events : List Event
deriving DecidableEq, Repr

/-- MacOSTinyTask.py `_MOVE_MIN_INTERVAL = 0.01`. -/
def TT_MOVE_MIN_INTERVAL : Rat := 1 / 100

/-- The module's initial state. -/
def TTRec.init : TTRec :=
  { recording := false, last_move_time := 0, last_move_pos := none, events := [] }

/-- MacOSTinyTask.py `start_recording` (the `playing` guard is off this
path; the clock anchor reset is reflected in the relative timestamps the
callbacks receive). -/
def TTRec.start_recording (_s : TTRec) : TTRec :=
  { recording := true, last_move_time := 0, last_move_pos := none, events := [] }

/-- MacOSTinyTask.py `stop_recording`. -/
def TTRec.stop_recording (s : TTRec) : TTRec := { s with recording := false }

/-- MacOSTinyTask.py `on_move`, with `t` the value `_now_rel()` returns:
the time gate both filters and advances `_last_move_time`; the position
gate runs after it. -/
def TTRec.on_move (s : TTRec) (t : Rat) (x y : Int) : TTRec :=
  if !s.recording then s
  else if t - s.last_move_time < TT_MOVE_MIN_INTERVAL then s
  else
    let s := { s with last_move_time := t }
    if s.last_move_pos = some (x, y) then s
    else { s with last_move_pos := some (x, y),
                  events := s.events ++ [⟨t, "move", moveData x y⟩] }

/-- A stimulus to the monolithic recorder. -/
inductive TTOp
  | start
  | stop
  | move (t : Rat) (x y : Int)
deriving DecidableEq, Repr

/-- Run a trace of stimuli against the monolithic recording state. -/
def TTRec.run (s : TTRec) : List TTOp → TTRec
  | [] => s
  | .start :: rest => (s.start_recording).run rest
  | .stop :: rest => (s.stop_recording).run rest
  | .move t x y :: rest => (s.on_move t x y).run rest

/-! ## Player (player.py)

Observable behaviour of `Player.play` is modelled against three
oracles:
* `stop : Nat → Bool` — the value `self._stop_evt.is_set()` returns at
  the n-th check the loop makes (two checks per event: one before the
  wait, one after it).  `threading.Event` is sticky, so runs of the real
  program satisfy `stop a → stop b` for `a ≤ b`.
* `pf : Nat → Option (Nat × String)` — platform failures:
  `pf i = some (n, msg)` means the pynput controller raises an exception
  with text `msg` during event `i`'s emission, after its first `n`
  primitive actions succeeded (meaningful only when the event has more
  than `n` actions; a raise needs a platform call to come from).
* `rng : Nat → Int` — the successive values `random.randint` returns.

Timing itself (the `Event.wait(timeout=w)` durations) is not part of
the observable emission behaviour; the wait durations are the
`computeWaits` values proved about separately. -/

/-- A primitive synthetic-input action of the pynput controllers. -/
inductive EmitAction
  | setPos (x y : Int)
  | press (b : Button)
  | release (b : Button)
  | scroll (dx dy : Int)
  | keyPress (k : PKey)
  | keyRelease (k : PKey)
deriving DecidableEq, Repr

/-- Python `int(v)` on a payload value (`int` of a bool is 0/1; `int` of
a numeric string parses it; anything else raises). -/
def jvalToInt : JVal → Except String Int
  | .jint n => .ok n
  | .jbool b => .ok (if b then 1 else 0)
  | .jstr s =>
    match s.toInt? with
    | some n => .ok n
    | none => .error "ValueError: int()"

/-- Python `bool(v)` on a payload value. -/
def jvalToBool : JVal → Bool
  | .jbool b => b
  | .jint n => n != 0
  | .jstr s => s != ""

/-- `int(e.data[k])`: `KeyError` when the key is absent. -/
def dataInt (d : EventData) (k : String) : Except String Int :=
  match d.get? k with
  | none => .error ("KeyError: " ++ k)
  | some v => jvalToInt v

/-- `int(e.data.get(k, 0))`: defaulting lookup, as in the scroll branch. -/
def dataIntD (d : EventData) (k : String) : Except String Int :=
  match d.get? k with
  | none => .ok 0
  | some v => jvalToInt v

/-- `e.data[k]` itself. -/
def dataVal (d : EventData) (k : String) : Except String JVal :=
  match d.get? k with
  | none => .error ("KeyError: " ++ k)
  | some v => .ok v

/-- `str_to_button(e.data["button"])`: Python's dict `.get` returns the
`Button.left` default for any non-string value too. -/
def jvalToButton : JVal → Button
  | .jstr s => str_to_button s
  | _ => .left

/-- The two `random.randint(-jitter_px, jitter_px)` draws of the
move/click branches, taken only when `jitter_px > 0`; `ri` indexes the
`rng` stream. -/
def jitterXY (jitter_px : Int) (rng : Nat → Int) (ri : Nat) (x y : Int) :
    (Int × Int) × Nat :=
  if 0 < jitter_px then ((x + rng ri, y + rng (ri + 1)), ri + 2) else ((x, y), ri)

/-- The body of player.py's per-event `try` block: the primitive actions
event `e` leads to, or the exception its data extraction raises before
any platform call.  Returns the advanced `rng` index.  Branches follow
player.py lines 54–85; an unknown kind matches no branch and does
nothing. -/
def emitActions (e : Event) (jitter_px : Int) (rng : Nat → Int) (ri : Nat) :
    Except String (List EmitAction) × Nat :=
  if e.kind = "move" then
    match dataInt e.data "x" with
    | .error msg => (.error msg, ri)
    | .ok x =>
      match dataInt e.data "y" with
      | .error msg => (.error msg, ri)
      | .ok y =>
        let j := jitterXY jitter_px rng ri x y
        (.ok [.setPos j.1.1 j.1.2], j.2)
  else if e.kind = "click" then
    match dataInt e.data "x" with
    | .error msg => (.error msg, ri)
    | .ok x =>
      match dataInt e.data "y" with
      | .error msg => (.error msg, ri)
      | .ok y =>
        match dataVal e.data "button" with
        | .error msg => (.error msg, ri)
        | .ok bv =>
          match dataVal e.data "pressed" with
          | .error msg => (.error msg, ri)
          | .ok pv =>
            let btn := jvalToButton bv
            let j := jitterXY jitter_px rng ri x y
            (.ok [.setPos j.1.1 j.1.2,
                  if jvalToBool pv then .press btn else .release btn], j.2)
  else if e.kind = "scroll" then
    match dataIntD e.data "dx" with
    | .error msg => (.error msg, ri)
    | .ok dx =>
      match dataIntD e.data "dy" with
      | .error msg => (.error msg, ri)
      | .ok dy => (.ok [.scroll dx dy], ri)
  else if e.kind = "kpress" then
    match dataVal e.data "key" with
    | .error msg => (.error msg, ri)
    | .ok v =>
      match v with
      | .jstr s =>
        match str_to_key s with
        | some k => (.ok [.keyPress k], ri)
        | none => (.ok [], ri)
      | _ => (.error "AttributeError: startswith", ri)
  else if e.kind = "krelease" then
    match dataVal e.data "key" with
    | .error msg => (.error msg, ri)
    | .ok v =>
      match v with
      | .jstr s =>
        match str_to_key s with
        | some k => (.ok [.keyRelease k], ri)
        | none => (.ok [], ri)
      | _ => (.error "AttributeError: startswith", ri)
  else (.ok [], ri)

/-- One iteration's `try`/`except`: a data-extraction exception emits
nothing and is reported; a platform exception after `n` successful
primitives (it needs a remaining primitive to come from) keeps those
`n` actions and is reported; otherwise all actions happen.  Returns
(actions, status messages, advanced rng index). -/
def processEvent (pfi : Option (Nat × String)) (jitter_px : Int)
    (rng : Nat → Int) (ri : Nat) (e : Event) :
    List EmitAction × List String × Nat :=
  match emitActions e jitter_px rng ri with
  | (.error msg, ri') => ([], ["Playback error: " ++ msg], ri')
  | (.ok acts, ri') =>
    match pfi with
    | some (n, msg) =>
      if n < acts.length then
        (acts.take n, ["Playback error: " ++ msg], ri')
      else (acts, [], ri')
    | none => (acts, [], ri')

/-- player.py lines 45–88, the emission loop: check the stop event,
wait (interruptibly), check again, then run the guarded per-event body.
`i` numbers events (for `pf`), `c` numbers stop checks, `ri` indexes
the rng stream. -/
def Player.playLoop (stop : Nat → Bool) (pf : Nat → Option (Nat × String))
    (jitter_px : Int) (rng : Nat → Int) :
    List Event → Nat → Nat → Nat → List EmitAction × List String
  | [], _, _, _ => ([], [])
  | e :: rest, i, c, ri =>
    if stop c then ([], [])
    else if stop (c + 1) then ([], [])
    else
      let p := processEvent (pf i) jitter_px rng ri e
      let q := Player.playLoop stop pf jitter_px rng rest (i + 1) (c + 2) p.2.2
      (p.1 ++ q.1, p.2.1 ++ q.2)

/-- player.py lines 37–43 (helper): the wait-precomputation loop, with
`prev` the previous event's timestamp. -/
def computeWaitsGo (speed : Rat) : List Event → Rat → List Rat
  | [], _ => []
  | e :: rest, prev =>
    max 0 ((e.t - prev) / max (1 / 1000000) speed) :: computeWaitsGo speed rest e.t

/-- player.py lines 37–43: `waits`, one duration per event, `prev`
starting at `0.0`; the divisor is `max(1e-6, speed)`. -/
def Player.computeWaits (events : List Event) (speed : Rat) : List Rat :=
  computeWaitsGo speed events 0

/-- The observable outcome of one `Player.play` call. -/
structure PlayOutcome where
  emitted : List EmitAction
  statuses : List String
  playing : Bool
deriving DecidableEq, Repr

/-- player.py `Player.play`: the empty-macro guard returns before any
state transition; otherwise the run enters Playing, executes the loop,
leaves Playing, and brackets the loop's error reports with the two
fixed status messages.  `playing0` is the `_playing` flag before the
call. -/
def Player.play (playing0 : Bool) (m : Macro) (_speed : Rat)
    (jitter_px : Int) (stop : Nat → Bool) (pf : Nat → Option (Nat × String))
    (rng : Nat → Int) : PlayOutcome :=
  if m.events = [] then
    { emitted := [], statuses := ["Nothing to play."], playing := playing0 }
  else
    let r := Player.playLoop stop pf jitter_px rng m.events 0 0 0
    { emitted := r.1,
      statuses := "Playing... (ESC to stop)" :: r.2 ++ ["Playback finished."],
      playing := false }

/-! ## Spec-side definitions and fixtures -/

/-- The shared shape of the wait formulas: one duration per event,
`max 0` of the forward delta divided by `s`, with `prev` the previous
timestamp. -/
def waitFormulaGo (s : Rat) : List Event → Rat → List Rat
  | [], _ => []
  | e :: rest, prev => max 0 ((e.t - prev) / s) :: waitFormulaGo s rest e.t

/-- The wait computation as claim C3 states it: `speed ≤ 0` is clamped
to the safe default `1.0` before the division, the first event's
previous timestamp is `0`. -/
def claimedWaits (events : List Event) (speed : Rat) : List Rat :=
  waitFormulaGo (if speed ≤ 0 then 1 else speed) events 0

/-- The plain formula `max(0, (events[i].t − events[i−1].t) / speed)`
with no clamping, for comparison against the code on speeds the clamp
leaves alone. -/
def waitFormula (events : List Event) (speed : Rat) : List Rat :=
  waitFormulaGo speed events 0

/-- Two events at `t = 0` and `t = 1`. -/
def waitDemo2 : List Event :=
  [⟨0, "move", moveData 0 0⟩, ⟨1, "move", moveData 5 5⟩]

/-- Three events at `t = 0, 1, 2` (the claim's speed-scaling example). -/
def waitDemo3 : List Event :=
  [⟨0, "move", moveData 0 0⟩, ⟨1, "move", moveData 5 5⟩,
   ⟨2, "move", moveData 9 9⟩]

/-- main.py `get_control_keys` evaluated at ui.py's `DEFAULT_KEYS`
(`record F3, play F7, save F4, open F6`), mapped through
`_FKEY_TO_PYNPUT`: the key symbols the control surface currently uses
as its toggle hotkeys. -/
def get_control_keys : List PKey :=
  [.named .f3, .named .f7, .named .f4, .named .f6]

/-- main.py `start_rec`, as it reaches the recorder: the
`hasattr(rec, "ignore_keys")` and `hasattr(rec, "set_key_filter")`
probes both fail (recorder.py's class defines `IGNORE_KEYS` and no
`set_key_filter`), so no key filter is installed and only `rec.start()`
runs. -/
def main_start_rec (r : Recorder) (now : Rat) : Recorder := r.start now

/-- The timestamps of an event list. -/
def evTimes (evs : List Event) : List Rat := evs.map Event.t

/-- Invariant for the monotonicity proof: recorded timestamps are
non-decreasing, and the last one is at most the clock reading the
anchored clock would produce at instant `tcur`. -/
def RInv (r : Recorder) (tcur : Rat) : Prop :=
  List.Chain' (· ≤ ·) (evTimes r.events) ∧
  ∀ lt ∈ (evTimes r.events).getLast?, ∃ a, r.clock.t0 = some a ∧ lt ≤ tcur - a

/-- The move events of a recorded list. -/
def movesOf (evs : List Event) : List Event :=
  evs.filter (fun e => e.kind = "move")

/-- Two consecutive recorded moves are at least `gap` apart in time and
carry different positions. -/
def SpacedDistinct (gap : Rat) (a b : Event) : Prop :=
  a.t + gap ≤ b.t ∧ a.data ≠ b.data

/-- Invariant for recorder.py's throttle: consecutive moves are spaced
and distinct, and the throttle state mirrors the last recorded move
exactly (`_last_move_t` and `_last_pos` are updated only on append). -/
def MoveInv (r : Recorder) : Prop :=
  List.Chain' (SpacedDistinct r.move_min_interval) (movesOf r.events) ∧
  ∀ m ∈ (movesOf r.events).getLast?,
    r.last_move_t = m.t ∧ ∃ x y, r.last_pos = some (x, y) ∧ m.data = moveData x y

/-- Invariant for MacOSTinyTask.py's throttle: `_last_move_time` can run
ahead of the last recorded move (it advances on rejected same-position
callbacks), while `_last_move_pos` still mirrors the last recorded
move. -/
def TTMoveInv (s : TTRec) : Prop :=
  List.Chain' (SpacedDistinct TT_MOVE_MIN_INTERVAL) (movesOf s.events) ∧
  ∀ m ∈ (movesOf s.events).getLast?,
    m.t ≤ s.last_move_time ∧
      ∃ x y, s.last_move_pos = some (x, y) ∧ m.data = moveData x y

/-- A stop signal is sticky: once observed set it stays set
(`threading.Event` semantics; `play` clears it only before the loop
starts). -/
def Sticky (stop : Nat → Bool) : Prop :=
  ∀ a b, a ≤ b → stop a = true → stop b = true

/-- The monolithic-script trace setting up the refutation of claim C4's
"if and only if": start, a recorded move at `t = 0.01`, then a
same-position callback at `t = 0.02` that only advances the throttle
clock.  The refuting callback is then a changed-position move at
`t = 0.025`. -/
def ttTrace : List TTOp :=
  [.start, .move (1/100) 0 0, .move (1/50) 0 0]

/-- A macro whose first event's key symbol does not resolve, followed by
a move event. -/
def badKeyMacro : Macro :=
  ⟨[⟨0, "kpress", [("key", .jstr "key:doesnotexist")]⟩,
    ⟨0, "move", moveData 3 4⟩]⟩

/-- A document whose single event has an unrecognized kind. -/
def docBadKind : Doc := ⟨1, [⟨some 0, some "banana", some []⟩]⟩

/-- A document whose single event is missing the required `t` field. -/
def docMissingT : Doc := ⟨1, [⟨none, some "move", some (moveData 1 2)⟩]⟩

/-- A two-event macro used to instantiate the cancellation theorem. -/
def cancelDemo : Macro :=
  ⟨[⟨0, "scroll", scrollData 0 0 1 1⟩, ⟨1, "scroll", scrollData 0 0 2 2⟩]⟩

/-! ## Theorems -/

/-- Parsing back the event objects `_save` writes recovers the original
events. -/
theorem load_events_save (evs : List Event) :
    load_events (evs.map fun e => ⟨some e.t, some e.kind, some e.data⟩) = .ok evs := by
  induction evs with
  | nil => rfl
  | cons e rest ih => simp [load_events, load_event, ih]

/-- C1 (Serialization round-trip): deserializing the document produced
by serializing any macro yields the macro back, for every event of the
five kinds and any payload; and the key-symbol encoding keeps the
literal character `f` (`"char:f"`) and the named key F1 (`"key:f1"`)
apart — each decodes to itself and the two encodings differ. -/
theorem serializer_round_trip :
    (∀ m : Macro, load_macro_doc (save_payload m) = .ok m) ∧
    str_to_key (key_to_str (.chr "f")) = some (.chr "f") ∧
    str_to_key (key_to_str (.named .f1)) = some (.named .f1) ∧
    key_to_str (.chr "f") ≠ key_to_str (.named .f1) := by
  refine ⟨fun m => ?_, rfl, rfl, by decide⟩
  simp [load_macro_doc, save_payload, load_events_save, Except.map]

/-- C3 counterexample: at `speed = 0` the code divides by the clamp
value `1e-6`, not by the claim's safe default `1.0`: on events at
`t = [0, 1]` the code's waits are `[0, 1000000]` while the claim's
formula yields `[0, 1]`. -/
theorem waits_clamp_counterexample :
    Player.computeWaits waitDemo2 0 = [0, 1000000] ∧
    claimedWaits waitDemo2 0 = [0, 1] ∧
    Player.computeWaits waitDemo2 0 ≠ claimedWaits waitDemo2 0 := by
  refine ⟨?_, ?_, ?_⟩ <;>
    norm_num [Player.computeWaits, claimedWaits, computeWaitsGo,
      waitFormulaGo, waitDemo2, max_def]

/-- For speeds the clamp leaves alone, the wait loop computes the plain
forward-delta formula. -/
theorem computeWaitsGo_eq (speed : Rat) (hs : 1 / 1000000 ≤ speed) :
    ∀ (evs : List Event) (prev : Rat),
      computeWaitsGo speed evs prev = waitFormulaGo speed evs prev := by
  intro evs
  induction evs with
  | nil => intro prev; rfl
  | cons e rest ih =>
    intro prev
    unfold computeWaitsGo waitFormulaGo
    rw [max_eq_right hs, ih]

/-- C3 (amended): the wait before event `i` is
`max(0, (events[i].t − events[i−1].t) / max(1e-6, speed))` with the
previous timestamp of the first event taken as `0` — so for every
`speed ≥ 1e-6` (in particular every speed the control surface passes
after its own clamping) the waits equal the plain formula
`max(0, Δt / speed)`, and events at `t = [0, 1, 2]` played at
`speed = 2.0` yield waits `[0, 0.5, 0.5]`. -/
theorem waits_formula (events : List Event) (speed : Rat)
    (hs : 1 / 1000000 ≤ speed) :
    Player.computeWaits events speed = waitFormula events speed ∧
    Player.computeWaits waitDemo3 2 = [0, 1/2, 1/2] :=
  ⟨computeWaitsGo_eq speed hs events 0, by
    norm_num [Player.computeWaits, computeWaitsGo, waitDemo3, max_def]⟩

/-- Witness for C3's amended theorem at `speed = 2`. -/
theorem waits_formula_witness :
    Player.computeWaits waitDemo2 2 = waitFormula waitDemo2 2 ∧
    Player.computeWaits waitDemo3 2 = [0, 1/2, 1/2] :=
  waits_formula waitDemo2 2 (by norm_num)

/-- C5 (Reserved-key exclusion, failing input): the control surface's
default record hotkey F3 is among the keys `get_control_keys` supplies,
F3 is not in the recorder's hard-coded `IGNORE_KEYS`, and after
main.py's `start_rec` (whose `hasattr` probes install nothing) a press
of F3 while recording is appended to the macro — the recorder captures
the control surface's own toggle key. -/
theorem reserved_key_recorded :
    PKey.named .f3 ∈ get_control_keys ∧
    PKey.named .f3 ∉ IGNORE_KEYS ∧
    ((main_start_rec (Recorder.init (1/100)) 0).on_key_press 1 (.named .f3)).events =
      [⟨1, "kpress", keyData (.named .f3)⟩] := by
  refine ⟨by decide, by decide, ?_⟩
  norm_num [main_start_rec, Recorder.init, Recorder.start, Recorder.on_key_press,
    Recorder.nowRel, RecClock.now_rel, RecClock.start, IGNORE_KEYS]
  rw [if_neg (by decide)]

/-- C8 counterexample: a document whose single event carries the
unrecognized kind `"banana"` loads without any error — the load neither
fails nor reports, it just stores the unknown kind. -/
theorem load_unknown_kind_counterexample :
    "banana" ∉ recognized_kinds ∧
    load_macro_doc docBadKind = .ok ⟨[⟨0, "banana", []⟩]⟩ ∧
    uiLoad ⟨[]⟩ docBadKind = (⟨[(⟨0, "banana", []⟩ : Event)]⟩, none) := by
  exact ⟨by decide, rfl, rfl⟩

/-- A successfully parsed event object had all three fields present. -/
theorem load_event_ok_fields (e : DocEvent) (ev : Event)
    (h : load_event e = .ok ev) : e.t? ≠ none ∧ e.kind? ≠ none := by
  unfold load_event at h
  split at h
  · simp at h
  · split at h
    · simp at h
    · split at h
      · simp at h
      · constructor <;> simp_all

/-- If some event object is missing `t` or `kind`, parsing the list
raises. -/
theorem load_events_error_of_missing (evs : List DocEvent)
    (h : ∃ e ∈ evs, e.t? = none ∨ e.kind? = none) :
    ∃ msg, load_events evs = .error msg := by
  induction evs with
  | nil => simp at h
  | cons e rest ih =>
    obtain ⟨e', he', hbad⟩ := h
    cases hle : load_event e with
    | error msg => exact ⟨msg, by simp [load_events, hle]⟩
    | ok ev =>
      have hfields := load_event_ok_fields e ev hle
      rcases List.mem_cons.mp he' with rfl | hmem
      · rcases hbad with h1 | h1
        · exact absurd h1 hfields.1
        · exact absurd h1 hfields.2
      · obtain ⟨msg, hmsg⟩ := ih ⟨e', hmem, hbad⟩
        exact ⟨msg, by simp [load_events, hle, hmsg]⟩

/-- C8 (amended): loading a document with an event missing the required
`t` or `kind` field raises, and the failure is atomic — the exception
fires before `_on_set_macro`, so the in-memory macro is unchanged.
(Unrecognized kinds, by contrast, are accepted without any error: see
the counterexample.) -/
theorem load_missing_required_field (cur : Macro) (d : Doc)
    (h : ∃ e ∈ d.events, e.t? = none ∨ e.kind? = none) :
    ∃ msg, load_macro_doc d = .error msg ∧ uiLoad cur d = (cur, some msg) := by
  obtain ⟨msg, hmsg⟩ := load_events_error_of_missing d.events h
  refine ⟨msg, ?_, ?_⟩
  · simp [load_macro_doc, hmsg, Except.map]
  · simp [uiLoad, load_macro_doc, hmsg, Except.map]

/-- Witness for C8's amended theorem: a document missing `t` fails and
leaves the empty in-memory macro as it was. -/
theorem load_missing_required_field_witness :
    ∃ msg, load_macro_doc docMissingT = .error msg ∧
      uiLoad ⟨[]⟩ docMissingT = (⟨[]⟩, some msg) :=
  load_missing_required_field ⟨[]⟩ docMissingT
    ⟨⟨none, some "move", some (moveData 1 2)⟩, by simp [docMissingT], Or.inl rfl⟩

/-- C9 (Empty-macro fail-fast): `play` on a macro with zero events
reports exactly "Nothing to play.", emits nothing, and leaves the
player's state as it was — in particular the `playing` flag keeps its
prior value and never becomes true. -/
theorem play_empty_macro (playing0 : Bool) (speed : Rat) (jitter_px : Int)
    (stop : Nat → Bool) (pf : Nat → Option (Nat × String)) (rng : Nat → Int) :
    Player.play playing0 ⟨[]⟩ speed jitter_px stop pf rng =
      ⟨[], ["Nothing to play."], playing0⟩ := rfl

/-- C10 (Button decoding is total, defaulting to left): for every string
other than "left"/"right"/"middle", `str_to_button` yields the left
button, and a click event carrying such a corrupted button string is
replayed as a left-button press at its coordinates with no error
status. -/
theorem str_to_button_default (s : String)
    (h1 : s ≠ "left") (h2 : s ≠ "right") (h3 : s ≠ "middle")
    (x y : Int) (t : Rat) (rng : Nat → Int) (ri : Nat) :
    str_to_button s = .left ∧
    processEvent none 0 rng ri
        ⟨t, "click", [("x", .jint x), ("y", .jint y),
                      ("button", .jstr s), ("pressed", .jbool true)]⟩ =
      ([.setPos x y, .press .left], [], ri) := by
  have hb : str_to_button s = .left := by simp [str_to_button, h1, h2, h3]
  have hev : processEvent none 0 rng ri
      ⟨t, "click", [("x", .jint x), ("y", .jint y),
                    ("button", .jstr s), ("pressed", .jbool true)]⟩ =
      ([.setPos x y, .press (str_to_button s)], [], ri) := rfl
  rw [hb] at hev
  exact ⟨hb, hev⟩

/-- Witness for C10 at the corrupted button string "bogus". -/
theorem str_to_button_default_witness :
    str_to_button "bogus" = .left ∧
    processEvent none 0 (fun _ => 0) 0
        ⟨0, "click", [("x", .jint 7), ("y", .jint 8),
                      ("button", .jstr "bogus"), ("pressed", .jbool true)]⟩ =
      ([.setPos 7 8, .press .left], [], 0) :=
  str_to_button_default "bogus" (by decide) (by decide) (by decide) 7 8 0 (fun _ => 0) 0

/-- The monotonicity invariant survives letting time pass. -/
theorem rinv_mono {r : Recorder} {t1 t2 : Rat} (h12 : t1 ≤ t2)
    (h : RInv r t1) : RInv r t2 := by
  refine ⟨h.1, fun lt hlt => ?_⟩
  obtain ⟨a, ha, hle⟩ := h.2 lt hlt
  exact ⟨a, ha, hle.trans (by linarith)⟩

/-- Appending an event stamped `now_rel` keeps the recorded timestamps
non-decreasing and re-establishes the last-timestamp bound (stated on
the components the invariant reads). -/
theorem rinv_append_aux {evs : List Event} {c : RecClock} {tcur now : Rat}
    (hc : tcur ≤ now)
    (hchain : List.Chain' (· ≤ ·) (evTimes evs))
    (hlast : ∀ lt ∈ (evTimes evs).getLast?, ∃ a, c.t0 = some a ∧ lt ≤ tcur - a)
    (kind : String) (data : EventData) :
    List.Chain' (· ≤ ·) (evTimes (evs ++ [⟨(c.now_rel now).1, kind, data⟩])) ∧
    ∀ lt ∈ (evTimes (evs ++ [⟨(c.now_rel now).1, kind, data⟩])).getLast?,
      ∃ a, (c.now_rel now).2.t0 = some a ∧ lt ≤ now - a := by
  have hmap : evTimes (evs ++ [⟨(c.now_rel now).1, kind, data⟩]) =
      evTimes evs ++ [(c.now_rel now).1] := by simp [evTimes]
  rw [hmap]
  cases c with
  | mk t0 =>
    cases t0 with
    | some a =>
      simp only [RecClock.now_rel]
      constructor
      · rw [List.chain'_append]
        refine ⟨hchain, List.chain'_singleton _, fun x hx y hy => ?_⟩
        obtain ⟨a', ha', hle⟩ := hlast x hx
        have : a' = a := by simpa using ha'.symm
        subst this
        simp only [List.head?_cons, Option.mem_def, Option.some.injEq] at hy
        subst hy
        linarith
      · intro lt hlt
        rw [List.getLast?_concat] at hlt
        simp only [Option.mem_def, Option.some.injEq] at hlt
        subst hlt
        exact ⟨a, rfl, le_refl _⟩
    | none =>
      simp only [RecClock.now_rel]
      constructor
      · rw [List.chain'_append]
        refine ⟨hchain, List.chain'_singleton _, fun x hx y hy => ?_⟩
        obtain ⟨a', ha', _⟩ := hlast x hx
        simp at ha'
      · intro lt hlt
        rw [List.getLast?_concat] at hlt
        simp only [Option.mem_def, Option.some.injEq] at hlt
        subst hlt
        exact ⟨now, rfl, by linarith⟩

/-- One recorder step preserves the monotonicity invariant, moving its
time anchor forward to the step's instant. -/
theorem rinv_step {r : Recorder} {tcur now : Rat} (hc : tcur ≤ now)
    (h : RInv r tcur) (op : RecOp) : RInv (r.step now op) now := by
  have huntouched : RInv r now := rinv_mono hc h
  cases op with
  | start =>
    show RInv (r.start now) now
    unfold Recorder.start
    by_cases hr : r.recording
    · simpa [hr] using huntouched
    · refine ⟨?_, ?_⟩ <;> simp [hr, evTimes]
  | stop => exact ⟨huntouched.1, huntouched.2⟩
  | move x y =>
    show RInv (r.on_move now x y) now
    unfold Recorder.on_move Recorder.nowRel
    by_cases hr : r.recording
    · simp only [hr, Bool.not_true, Bool.false_eq_true, if_false]
      by_cases hgate : (r.clock.now_rel now).1 - r.last_move_t < r.move_min_interval
      · rw [if_pos hgate]
        refine ⟨h.1, fun lt hlt => ?_⟩
        obtain ⟨a, ha, hle⟩ := h.2 lt hlt
        refine ⟨a, ?_, by linarith⟩
        cases hc0 : r.clock.t0 with
        | some a' => simp [RecClock.now_rel, hc0]; rw [hc0] at ha; simpa using ha
        | none => rw [hc0] at ha; simp at ha
      · rw [if_neg hgate]
        split_ifs with hpos
        · refine ⟨h.1, fun lt hlt => ?_⟩
          obtain ⟨a, ha, hle⟩ := h.2 lt hlt
          refine ⟨a, ?_, by linarith⟩
          cases hc0 : r.clock.t0 with
          | some a' => simp [RecClock.now_rel, hc0]; rw [hc0] at ha; simpa using ha
          | none => rw [hc0] at ha; simp at ha
        · exact rinv_append_aux hc h.1 h.2 "move" (moveData x y)
    · simpa [hr] using huntouched
  | click x y b p =>
    show RInv (r.on_click now x y b p) now
    unfold Recorder.on_click Recorder.nowRel
    by_cases hr : r.recording
    · simp only [hr, Bool.not_true, Bool.false_eq_true, if_false]
      exact rinv_append_aux hc h.1 h.2 "click" (clickData x y b p)
    · simpa [hr] using huntouched
  | scroll x y dx dy =>
    show RInv (r.on_scroll now x y dx dy) now
    unfold Recorder.on_scroll Recorder.nowRel
    by_cases hr : r.recording
    · simp only [hr, Bool.not_true, Bool.false_eq_true, if_false]
      exact rinv_append_aux hc h.1 h.2 "scroll" (scrollData x y dx dy)
    · simpa [hr] using huntouched
  | kpress k =>
    show RInv (r.on_key_press now k) now
    unfold Recorder.on_key_press Recorder.nowRel
    by_cases hcond : (!r.recording || IGNORE_KEYS.contains k) = true
    · rw [if_pos hcond]; exact huntouched
    · rw [if_neg hcond]
      exact rinv_append_aux hc h.1 h.2 "kpress" (keyData k)
  | krelease k =>
    show RInv (r.on_key_release now k) now
    unfold Recorder.on_key_release Recorder.nowRel
    by_cases hcond : (!r.recording || IGNORE_KEYS.contains k) = true
    · rw [if_pos hcond]; exact huntouched
    · rw [if_neg hcond]
      exact rinv_append_aux hc h.1 h.2 "krelease" (keyData k)

/-- Running a trace whose instants are non-decreasing (and start no
earlier than the invariant's anchor) keeps the recorded timestamps
non-decreasing. -/
theorem run_chain : ∀ (ops : List (Rat × RecOp)) (r : Recorder) (tcur : Rat),
    RInv r tcur → (∀ x ∈ ops.head?, tcur ≤ x.1) →
    List.Chain' (fun a b : Rat × RecOp => a.1 ≤ b.1) ops →
    List.Chain' (· ≤ ·) (evTimes (r.run ops).events) := by
  intro ops
  induction ops with
  | nil => intro r tcur h _ _; exact h.1
  | cons x rest ih =>
    intro r tcur h hhead hchain
    obtain ⟨now, op⟩ := x
    have hx : tcur ≤ now := hhead (now, op) rfl
    have h' : RInv (r.step now op) now := rinv_step hx h op
    rw [List.chain'_cons'] at hchain
    exact ih (r.step now op) now h' hchain.1 hchain.2

/-- C2 (Monotonicity): for any timed trace of recorder stimuli — any
interleaving of start/stop and the five input callbacks, with instants
drawn from the monotone clock — the macro the recorder accumulates has
non-decreasing timestamps: `events[i].t ≤ events[i+1].t` for every
adjacent pair. -/
theorem recorder_monotonic (mmi : Rat) (ops : List (Rat × RecOp))
    (h : List.Chain' (fun a b : Rat × RecOp => a.1 ≤ b.1) ops) :
    List.Chain' (· ≤ ·) (evTimes ((Recorder.init mmi).run ops).events) := by
  have hinv : ∀ tc : Rat, RInv (Recorder.init mmi) tc := by
    intro tc
    constructor
    · simp [Recorder.init, evTimes]
    · simp [Recorder.init, evTimes]
  cases ops with
  | nil => exact (hinv 0).1
  | cons x rest =>
    refine run_chain (x :: rest) _ x.1 (hinv x.1) ?_ h
    intro y hy
    simp only [List.head?_cons, Option.mem_def, Option.some.injEq] at hy
    subst hy
    exact le_refl _

/-- Witness for C2 on a concrete trace: start at instant 0, a key press
at 1, a key release at 2. -/
theorem recorder_monotonic_witness :
    List.Chain' (fun a b : Rat × RecOp => a.1 ≤ b.1)
      [((0:Rat), RecOp.start), ((1:Rat), .kpress (.chr "a")),
       ((2:Rat), .krelease (.chr "a"))] ∧
    List.Chain' (· ≤ ·)
      (evTimes ((Recorder.init (1/100)).run
        [((0:Rat), RecOp.start), ((1:Rat), .kpress (.chr "a")),
         ((2:Rat), .krelease (.chr "a"))]).events) := by
  have hops : List.Chain' (fun a b : Rat × RecOp => a.1 ≤ b.1)
      [((0:Rat), RecOp.start), ((1:Rat), .kpress (.chr "a")),
       ((2:Rat), .krelease (.chr "a"))] := by
    simp only [List.chain'_cons, List.chain'_singleton, and_true]
    norm_num
  exact ⟨hops, recorder_monotonic (1/100) _ hops⟩

/-- recorder.py `_on_move` appends exactly when recording, the elapsed
time since the last recorded move reaches the interval, and the
position changed (the throttle state is updated only on append). -/
theorem on_move_characterization (r : Recorder) (now : Rat) (x y : Int) :
    (r.on_move now x y).events =
      if r.recording = true ∧
          r.move_min_interval ≤ (r.clock.now_rel now).1 - r.last_move_t ∧
          r.last_pos ≠ some (x, y)
      then r.events ++ [⟨(r.clock.now_rel now).1, "move", moveData x y⟩]
      else r.events := by
  unfold Recorder.on_move Recorder.nowRel
  by_cases hr : r.recording
  · simp only [hr, Bool.not_true, Bool.false_eq_true, if_false]
    by_cases hgate : (r.clock.now_rel now).1 - r.last_move_t < r.move_min_interval
    · rw [if_pos hgate, if_neg fun hcon => (not_lt.mpr hcon.2.1) hgate]
    · rw [if_neg hgate]
      have hle := not_lt.mp hgate
      split_ifs with hpos hB hB'
      · exact absurd hpos hB.2.2
      · rfl
      · rfl
      · exact absurd ⟨trivial, hle, hpos⟩ hB'
  · simp [hr]

/-- MacOSTinyTask.py `on_move` appends exactly when recording, the
elapsed time since the last gate-passing callback (`_last_move_time`,
which can run ahead of the last recorded move) reaches the interval,
and the position changed. -/
theorem tt_on_move_characterization (s : TTRec) (t : Rat) (x y : Int) :
    (s.on_move t x y).events =
      if s.recording = true ∧ TT_MOVE_MIN_INTERVAL ≤ t - s.last_move_time ∧
          s.last_move_pos ≠ some (x, y)
      then s.events ++ [⟨t, "move", moveData x y⟩]
      else s.events := by
  unfold TTRec.on_move
  by_cases hr : s.recording
  · simp only [hr, Bool.not_true, Bool.false_eq_true, if_false]
    by_cases hgate : t - s.last_move_time < TT_MOVE_MIN_INTERVAL
    · rw [if_pos hgate, if_neg fun hcon => (not_lt.mpr hcon.2.1) hgate]
    · rw [if_neg hgate]
      have hle := not_lt.mp hgate
      split_ifs with hpos hB hB'
      · exact absurd hpos hB.2.2
      · rfl
      · rfl
      · exact absurd ⟨trivial, hle, hpos⟩ hB'
  · simp [hr]

/-- C4 counterexample, on MacOSTinyTask.py's `on_move`: after a recorded
move at `t = 0.01` position `(0,0)` and a same-position callback at
`t = 0.02` (which advanced `_last_move_time` without recording), a
callback at `t = 0.025` position `(1,1)` satisfies both of the claim's
conditions — `0.015 ≥ 0.01` elapsed since the last *recorded* move and
a changed position — yet records nothing: the state is returned
unchanged, refuting the claim's "if and only if". -/
theorem tt_move_throttle_counterexample :
    TTRec.init.run ttTrace =
      { recording := true, last_move_time := 1/50, last_move_pos := some (0, 0),
        events := [⟨1/100, "move", moveData 0 0⟩] } ∧
    TT_MOVE_MIN_INTERVAL ≤ (1/40 : Rat) - (1/100 : Rat) ∧
    some ((1 : Int), (1 : Int)) ≠ some ((0 : Int), (0 : Int)) ∧
    (TTRec.init.run ttTrace).on_move (1/40) 1 1 = TTRec.init.run ttTrace := by
  have h0 : TTRec.init.start_recording = (⟨true, 0, none, []⟩ : TTRec) := rfl
  have h1 : (⟨true, 0, none, []⟩ : TTRec).on_move (1/100) 0 0 =
      (⟨true, 1/100, some (0, 0), [⟨1/100, "move", moveData 0 0⟩]⟩ : TTRec) := by
    norm_num [TTRec.on_move, TT_MOVE_MIN_INTERVAL]
    decide
  have h2 : (⟨true, 1/100, some (0, 0),
        [⟨1/100, "move", moveData 0 0⟩]⟩ : TTRec).on_move (1/50) 0 0 =
      (⟨true, 1/50, some (0, 0), [⟨1/100, "move", moveData 0 0⟩]⟩ : TTRec) := by
    norm_num [TTRec.on_move, TT_MOVE_MIN_INTERVAL]
  have hrun : TTRec.init.run ttTrace =
      (⟨true, 1/50, some (0, 0), [⟨1/100, "move", moveData 0 0⟩]⟩ : TTRec) := by
    show ((TTRec.init.start_recording.on_move (1/100) 0 0).on_move (1/50) 0 0) = _
    rw [h0, h1, h2]
  refine ⟨hrun, by norm_num [TT_MOVE_MIN_INTERVAL], by decide, ?_⟩
  rw [hrun]
  norm_num [TTRec.on_move, TT_MOVE_MIN_INTERVAL]

/-- A move payload determines its coordinates. -/
theorem moveData_inj {x y x' y' : Int} (h : moveData x y = moveData x' y') :
    x = x' ∧ y = y' := by
  simpa [moveData] using h

/-- Appending a move event extends the move sublist. -/
theorem movesOf_append_move (evs : List Event) (e : Event) (h : e.kind = "move") :
    movesOf (evs ++ [e]) = movesOf evs ++ [e] := by
  simp [movesOf, List.filter_append, h]

/-- Appending a non-move event leaves the move sublist unchanged. -/
theorem movesOf_append_nonmove (evs : List Event) (e : Event)
    (h : ¬ e.kind = "move") : movesOf (evs ++ [e]) = movesOf evs := by
  simp [movesOf, List.filter_append, h]

/-- The throttle invariant transfers to any state with the same moves
and throttle fields. -/
theorem moveInv_of_parts {r r' : Recorder} (h : MoveInv r)
    (hmmi : r'.move_min_interval = r.move_min_interval)
    (hev : movesOf r'.events = movesOf r.events)
    (hlmt : r'.last_move_t = r.last_move_t)
    (hlp : r'.last_pos = r.last_pos) : MoveInv r' := by
  unfold MoveInv at *
  rw [hmmi, hev, hlmt, hlp]
  exact h

/-- Each recorder step preserves the throttle invariant. -/
theorem moveInv_step (r : Recorder) (now : Rat) (op : RecOp) (h : MoveInv r) :
    MoveInv (r.step now op) := by
  cases op with
  | start =>
    show MoveInv (r.start now)
    unfold Recorder.start
    by_cases hr : r.recording
    · rw [if_pos hr]; exact h
    · rw [if_neg hr]
      refine ⟨?_, ?_⟩ <;> simp [movesOf]
  | stop => exact moveInv_of_parts h rfl rfl rfl rfl
  | move x y =>
    show MoveInv (r.on_move now x y)
    unfold Recorder.on_move Recorder.nowRel
    by_cases hr : r.recording
    · simp only [hr, Bool.not_true, Bool.false_eq_true, if_false]
      by_cases hgate : (r.clock.now_rel now).1 - r.last_move_t < r.move_min_interval
      · rw [if_pos hgate]
        exact moveInv_of_parts h rfl rfl rfl rfl
      · rw [if_neg hgate]
        have hle := not_lt.mp hgate
        split_ifs with hpos
        · exact moveInv_of_parts h rfl rfl rfl rfl
        · refine ⟨?_, ?_⟩
          · show List.Chain' (SpacedDistinct r.move_min_interval)
              (movesOf (r.events ++
                [⟨(r.clock.now_rel now).1, "move", moveData x y⟩]))
            rw [movesOf_append_move _ _ rfl, List.chain'_append]
            refine ⟨h.1, List.chain'_singleton _, fun m hm e' he' => ?_⟩
            obtain ⟨hlmt, x0, y0, hlp, hdata⟩ := h.2 m hm
            simp only [List.head?_cons, Option.mem_def, Option.some.injEq] at he'
            subst he'
            constructor
            · show m.t + r.move_min_interval ≤ (r.clock.now_rel now).1
              rw [hlmt] at hle
              linarith
            · intro hcon
              rw [hdata] at hcon
              obtain ⟨rfl, rfl⟩ := moveData_inj hcon
              exact hpos hlp
          · show ∀ m ∈ (movesOf (r.events ++
                [⟨(r.clock.now_rel now).1, "move", moveData x y⟩])).getLast?, _
            rw [movesOf_append_move _ _ rfl]
            intro m hm
            rw [List.getLast?_concat] at hm
            simp only [Option.mem_def, Option.some.injEq] at hm
            subst hm
            exact ⟨rfl, x, y, rfl, rfl⟩
    · simpa [hr] using h
  | click x y b p =>
    show MoveInv (r.on_click now x y b p)
    unfold Recorder.on_click Recorder.nowRel
    by_cases hr : r.recording
    · simp only [hr, Bool.not_true, Bool.false_eq_true, if_false]
      exact moveInv_of_parts h rfl
        (movesOf_append_nonmove _ _ (show ¬("click" : String) = "move" by decide)) rfl rfl
    · simpa [hr] using h
  | scroll x y dx dy =>
    show MoveInv (r.on_scroll now x y dx dy)
    unfold Recorder.on_scroll Recorder.nowRel
    by_cases hr : r.recording
    · simp only [hr, Bool.not_true, Bool.false_eq_true, if_false]
      exact moveInv_of_parts h rfl
        (movesOf_append_nonmove _ _ (show ¬("scroll" : String) = "move" by decide)) rfl rfl
    · simpa [hr] using h
  | kpress k =>
    show MoveInv (r.on_key_press now k)
    unfold Recorder.on_key_press Recorder.nowRel
    by_cases hcond : (!r.recording || IGNORE_KEYS.contains k) = true
    · rw [if_pos hcond]; exact h
    · rw [if_neg hcond]
      exact moveInv_of_parts h rfl
        (movesOf_append_nonmove _ _ (show ¬("kpress" : String) = "move" by decide)) rfl rfl
  | krelease k =>
    show MoveInv (r.on_key_release now k)
    unfold Recorder.on_key_release Recorder.nowRel
    by_cases hcond : (!r.recording || IGNORE_KEYS.contains k) = true
    · rw [if_pos hcond]; exact h
    · rw [if_neg hcond]
      exact moveInv_of_parts h rfl
        (movesOf_append_nonmove _ _ (show ¬("krelease" : String) = "move" by decide)) rfl rfl

/-- The throttle invariant holds of a fresh recorder. -/
theorem moveInv_init (mmi : Rat) : MoveInv (Recorder.init mmi) := by
  refine ⟨?_, ?_⟩ <;> simp [Recorder.init, movesOf]

/-- The throttle invariant is preserved by whole traces. -/
theorem moveInv_run : ∀ (ops : List (Rat × RecOp)) (r : Recorder),
    MoveInv r → MoveInv (r.run ops) := by
  intro ops
  induction ops with
  | nil => intro r h; exact h
  | cons x rest ih =>
    intro r h
    obtain ⟨now, op⟩ := x
    show MoveInv ((r.step now op).run rest)
    exact ih _ (moveInv_step r now op h)

/-- A recorder step never changes the configured minimum interval. -/
theorem step_move_min_interval (r : Recorder) (now : Rat) (op : RecOp) :
    (r.step now op).move_min_interval = r.move_min_interval := by
  cases op with
  | start =>
    show (r.start now).move_min_interval = _
    simp only [Recorder.start]
    split_ifs <;> rfl
  | stop => rfl
  | move x y =>
    show (r.on_move now x y).move_min_interval = _
    simp only [Recorder.on_move, Recorder.nowRel]
    split_ifs <;> rfl
  | click x y b p =>
    show (r.on_click now x y b p).move_min_interval = _
    simp only [Recorder.on_click, Recorder.nowRel]
    split_ifs <;> rfl
  | scroll x y dx dy =>
    show (r.on_scroll now x y dx dy).move_min_interval = _
    simp only [Recorder.on_scroll, Recorder.nowRel]
    split_ifs <;> rfl
  | kpress k =>
    show (r.on_key_press now k).move_min_interval = _
    simp only [Recorder.on_key_press, Recorder.nowRel]
    split_ifs <;> rfl
  | krelease k =>
    show (r.on_key_release now k).move_min_interval = _
    simp only [Recorder.on_key_release, Recorder.nowRel]
    split_ifs <;> rfl

/-- A whole trace never changes the configured minimum interval. -/
theorem run_move_min_interval : ∀ (ops : List (Rat × RecOp)) (r : Recorder),
    (r.run ops).move_min_interval = r.move_min_interval := by
  intro ops
  induction ops with
  | nil => intro r; rfl
  | cons x rest ih =>
    intro r
    obtain ⟨now, op⟩ := x
    show ((r.step now op).run rest).move_min_interval = _
    rw [ih, step_move_min_interval]

/-- The monolithic throttle invariant transfers to a state whose moves
and position mirror are unchanged and whose throttle clock only moved
forward. -/
theorem ttMoveInv_of_parts {s s' : TTRec} (h : TTMoveInv s)
    (hev : movesOf s'.events = movesOf s.events)
    (hlmt : s.last_move_time ≤ s'.last_move_time)
    (hlp : s'.last_move_pos = s.last_move_pos) : TTMoveInv s' := by
  unfold TTMoveInv at *
  rw [hev, hlp]
  refine ⟨h.1, fun m hm => ?_⟩
  obtain ⟨hmt, x, y, hxy, hdata⟩ := h.2 m hm
  exact ⟨hmt.trans hlmt, x, y, hxy, hdata⟩

/-- MacOSTinyTask.py's `on_move` preserves the monolithic throttle
invariant. -/
theorem ttMoveInv_on_move (s : TTRec) (t : Rat) (x y : Int)
    (h : TTMoveInv s) : TTMoveInv (s.on_move t x y) := by
  unfold TTRec.on_move
  by_cases hr : s.recording
  · simp only [hr, Bool.not_true, Bool.false_eq_true, if_false]
    by_cases hgate : t - s.last_move_time < TT_MOVE_MIN_INTERVAL
    · rw [if_pos hgate]; exact h
    · rw [if_neg hgate]
      have hle := not_lt.mp hgate
      have hlmt_t : s.last_move_time ≤ t := by
        have hgap : (0 : Rat) ≤ TT_MOVE_MIN_INTERVAL := by
          norm_num [TT_MOVE_MIN_INTERVAL]
        linarith
      split_ifs with hpos
      · exact ttMoveInv_of_parts h rfl hlmt_t rfl
      · refine ⟨?_, ?_⟩
        · show List.Chain' (SpacedDistinct TT_MOVE_MIN_INTERVAL)
            (movesOf (s.events ++ [⟨t, "move", moveData x y⟩]))
          rw [movesOf_append_move _ _ rfl, List.chain'_append]
          refine ⟨h.1, List.chain'_singleton _, fun m hm e' he' => ?_⟩
          obtain ⟨hmt, x0, y0, hxy, hdata⟩ := h.2 m hm
          simp only [List.head?_cons, Option.mem_def, Option.some.injEq] at he'
          subst he'
          constructor
          · show m.t + TT_MOVE_MIN_INTERVAL ≤ t
            linarith
          · intro hcon
            rw [hdata] at hcon
            obtain ⟨rfl, rfl⟩ := moveData_inj hcon
            exact hpos hxy
        · show ∀ m ∈ (movesOf (s.events ++ [⟨t, "move", moveData x y⟩])).getLast?, _
          rw [movesOf_append_move _ _ rfl]
          intro m hm
          rw [List.getLast?_concat] at hm
          simp only [Option.mem_def, Option.some.injEq] at hm
          subst hm
          exact ⟨le_refl _, x, y, rfl, rfl⟩
  · simpa [hr] using h

/-- The monolithic throttle invariant holds right after
`start_recording`. -/
theorem ttMoveInv_start (s : TTRec) : TTMoveInv s.start_recording := by
  refine ⟨?_, ?_⟩ <;> simp [TTRec.start_recording, movesOf]

/-- The monolithic throttle invariant holds initially. -/
theorem ttMoveInv_init : TTMoveInv TTRec.init := by
  refine ⟨?_, ?_⟩ <;> simp [TTRec.init, movesOf]

/-- The monolithic throttle invariant is preserved by whole traces. -/
theorem ttMoveInv_run : ∀ (ops : List TTOp) (s : TTRec),
    TTMoveInv s → TTMoveInv (s.run ops) := by
  intro ops
  induction ops with
  | nil => intro s h; exact h
  | cons op rest ih =>
    intro s h
    cases op with
    | start => exact ih _ (ttMoveInv_start s)
    | stop => exact ih _ (ttMoveInv_of_parts h rfl (le_refl _) rfl)
    | move t x y => exact ih _ (ttMoveInv_on_move s t x y h)

/-- C4 (amended): in recorder.py a move callback is appended exactly
when recording, at least the minimum interval has elapsed since the
last recorded move, and the position changed; in MacOSTinyTask.py the
time condition is instead measured against the last gate-passing
callback (which a rejected same-position callback also advances), so a
qualifying move can still be skipped there.  In both variants the
stated consequences hold: consecutive recorded moves are spaced at
least the minimum interval apart and never repeat a position. -/
theorem move_throttling_amended :
    (∀ (r : Recorder) (now : Rat) (x y : Int),
        (r.on_move now x y).events =
          if r.recording = true ∧
              r.move_min_interval ≤ (r.clock.now_rel now).1 - r.last_move_t ∧
              r.last_pos ≠ some (x, y)
          then r.events ++ [⟨(r.clock.now_rel now).1, "move", moveData x y⟩]
          else r.events) ∧
    (∀ (s : TTRec) (t : Rat) (x y : Int),
        (s.on_move t x y).events =
          if s.recording = true ∧ TT_MOVE_MIN_INTERVAL ≤ t - s.last_move_time ∧
              s.last_move_pos ≠ some (x, y)
          then s.events ++ [⟨t, "move", moveData x y⟩]
          else s.events) ∧
    (∀ (mmi : Rat) (ops : List (Rat × RecOp)),
        List.Chain' (SpacedDistinct mmi)
          (movesOf ((Recorder.init mmi).run ops).events)) ∧
    (∀ ops : List TTOp,
        List.Chain' (SpacedDistinct TT_MOVE_MIN_INTERVAL)
          (movesOf (TTRec.init.run ops).events)) := by
  refine ⟨on_move_characterization, tt_on_move_characterization, ?_, ?_⟩
  · intro mmi ops
    have h1 : List.Chain'
        (SpacedDistinct ((Recorder.init mmi).run ops).move_min_interval)
        (movesOf ((Recorder.init mmi).run ops).events) :=
      (moveInv_run ops (Recorder.init mmi) (moveInv_init mmi)).1
    rw [run_move_min_interval] at h1
    exact h1
  · intro ops
    exact (ttMoveInv_run ops TTRec.init ttMoveInv_init).1

/-- With the stop signal observed set at the second check of the `n`-th
remaining event, the emission loop behaves exactly as if only the first
`n` events existed. -/
theorem playLoop_stopped (stop : Nat → Bool) (pf : Nat → Option (Nat × String))
    (jx : Int) (rng : Nat → Int) :
    ∀ (evs : List Event) (n i c ri : Nat), stop (c + 2 * n + 1) = true →
      Player.playLoop stop pf jx rng evs i c ri =
        Player.playLoop stop pf jx rng (evs.take n) i c ri := by
  intro evs
  induction evs with
  | nil => intro n i c ri _; rw [List.take_nil]
  | cons e rest ih =>
    intro n i c ri hstop
    by_cases hc : stop c = true
    · cases n with
      | zero => simp [Player.playLoop, hc]
      | succ n' => simp [Player.playLoop, hc]
    · cases n with
      | zero =>
        have h1 : stop (c + 1) = true := by simpa using hstop
        simp [Player.playLoop, hc, h1]
      | succ n' =>
        by_cases hc1 : stop (c + 1) = true
        · simp [Player.playLoop, hc, hc1]
        · have harith : c + 2 + 2 * n' + 1 = c + 2 * (n' + 1) + 1 := by ring
          have hrec := ih n' (i + 1) (c + 2)
            (processEvent (pf i) jx rng ri e).2.2 (by rw [harith]; exact hstop)
          simp only [Player.playLoop, hc, hc1, List.take_succ_cons,
            Bool.false_eq_true, if_false]
          rw [hrec]

/-- C6 (Cancellation): with a sticky stop signal (threading.Event
semantics) observed set at either the check before event `i`'s wait or
the check after it, playback emits only what the loop running on the
first `i` events alone would emit — event `i` and everything after it
are never emitted — and the player leaves Playing (`playing` ends up
false). -/
theorem player_cancellation (playing0 : Bool) (m : Macro) (speed : Rat)
    (jx : Int) (stop : Nat → Bool) (pf : Nat → Option (Nat × String))
    (rng : Nat → Int) (i : Nat) (hi : i < m.events.length)
    (hsticky : Sticky stop)
    (hstop : stop (2 * i) = true ∨ stop (2 * i + 1) = true) :
    (Player.play playing0 m speed jx stop pf rng).emitted =
      (Player.playLoop stop pf jx rng (m.events.take i) 0 0 0).1 ∧
    (Player.play playing0 m speed jx stop pf rng).playing = false := by
  have hne : ¬ m.events = [] := by
    intro h
    rw [h] at hi
    simp at hi
  have h1 : stop (2 * i + 1) = true := by
    rcases hstop with h | h
    · exact hsticky _ _ (Nat.le_succ _) h
    · exact h
  have htr := playLoop_stopped stop pf jx rng m.events i 0 0 0
    (by simpa using h1)
  unfold Player.play
  rw [if_neg hne]
  exact ⟨congrArg Prod.fst htr, rfl⟩

/-- Witness for C6: a two-event macro, the stop signal first observed
set at check 3 (after event 1's wait); only event 0 is emitted and the
player is idle afterwards. -/
theorem player_cancellation_witness :
    (Player.play false cancelDemo 1 0 (fun c => decide (3 ≤ c))
        (fun _ => none) (fun _ => 0)).emitted =
      (Player.playLoop (fun c => decide (3 ≤ c)) (fun _ => none) 0 (fun _ => 0)
        (cancelDemo.events.take 1) 0 0 0).1 ∧
    (Player.play false cancelDemo 1 0 (fun c => decide (3 ≤ c))
        (fun _ => none) (fun _ => 0)).playing = false := by
  refine player_cancellation false cancelDemo 1 0 (fun c => decide (3 ≤ c))
    (fun _ => none) (fun _ => 0) 1 (by decide) ?_ (Or.inr (by decide))
  intro a b hab ha
  simp only [decide_eq_true_eq] at *
  omega

/-- C7 counterexample: in the macro whose first event carries the
unresolvable key string "key:doesnotexist", that event is skipped
*silently* — playback continues and finishes (the later move event is
emitted), but no per-event error ever reaches the status sink,
refuting the claim that a key-resolution failure is reported. -/
theorem silent_key_skip_counterexample :
    str_to_key "key:doesnotexist" = none ∧
    Player.play false badKeyMacro 1 0 (fun _ => false) (fun _ => none)
        (fun _ => 0) =
      ⟨[.setPos 3 4], ["Playing... (ESC to stop)", "Playback finished."],
        false⟩ := by
  exact ⟨rfl, rfl⟩

/-- C7 (amended): playback never aborts — with the stop signal clear,
processing `e :: rest` is exactly processing `e` followed by processing
`rest` from event index `i+1` (part 1); an exception raised by a
platform call while emitting an event is caught and reported through
the status sink, with the event's earlier primitives already performed
(part 2); a key-press or key-release event whose key symbol fails to
resolve is skipped silently — it contributes no action and no status —
and playback continues (part 3). -/
theorem playback_continuation_amended :
    (∀ (pf : Nat → Option (Nat × String)) (jx : Int) (rng : Nat → Int)
        (e : Event) (rest : List Event) (i c ri : Nat),
        Player.playLoop (fun _ => false) pf jx rng (e :: rest) i c ri =
          ((processEvent (pf i) jx rng ri e).1 ++
            (Player.playLoop (fun _ => false) pf jx rng rest (i + 1) (c + 2)
              (processEvent (pf i) jx rng ri e).2.2).1,
           (processEvent (pf i) jx rng ri e).2.1 ++
            (Player.playLoop (fun _ => false) pf jx rng rest (i + 1) (c + 2)
              (processEvent (pf i) jx rng ri e).2.2).2)) ∧
    (∀ (e : Event) (jx : Int) (rng : Nat → Int) (ri : Nat)
        (acts : List EmitAction) (n : Nat) (msg : String),
        (emitActions e jx rng ri).1 = .ok acts → n < acts.length →
        processEvent (some (n, msg)) jx rng ri e =
          (acts.take n, ["Playback error: " ++ msg],
            (emitActions e jx rng ri).2)) ∧
    (∀ (pfi : Option (Nat × String)) (jx : Int) (rng : Nat → Int) (ri : Nat)
        (e : Event) (s : String),
        e.kind = "kpress" ∨ e.kind = "krelease" →
        e.data.get? "key" = some (.jstr s) →
        str_to_key s = none →
        processEvent pfi jx rng ri e = ([], [], ri)) := by
  refine ⟨fun pf jx rng e rest i c ri => rfl, ?_, ?_⟩
  · intro e jx rng ri acts n msg hok hn
    unfold processEvent
    rcases hres : emitActions e jx rng ri with ⟨res, ri'⟩
    rw [hres] at hok
    simp only at hok
    subst hok
    simp [hn]
  · intro pfi jx rng ri e s hkind hkey hnone
    have hacts : emitActions e jx rng ri = (.ok [], ri) := by
      unfold emitActions
      rcases hkind with hkind | hkind <;>
        rw [hkind] <;>
        simp only [String.reduceEq, if_false, if_true, reduceIte] <;>
        simp [dataVal, hkey, hnone]
    unfold processEvent
    rw [hacts]
    cases pfi with
    | none => rfl
    | some p =>
      obtain ⟨n, msg⟩ := p
      simp

/-- Witness for C7's amended theorem: a platform raise on a move event
is reported with nothing emitted; an unresolvable key press and an
unresolvable key release each contribute nothing at all. -/
theorem playback_continuation_witness :
    processEvent (some (0, "boom")) 0 (fun _ => 0) 0
        ⟨0, "move", moveData 1 2⟩ = ([], ["Playback error: boom"], 0) ∧
    processEvent none 0 (fun _ => 0) 0
        ⟨0, "kpress", [("key", .jstr "key:nope")]⟩ = ([], [], 0) ∧
    processEvent none 0 (fun _ => 0) 0
        ⟨0, "krelease", [("key", .jstr "key:nope")]⟩ = ([], [], 0) := by
  refine ⟨?_, ?_, ?_⟩
  · have h := playback_continuation_amended.2.1 ⟨0, "move", moveData 1 2⟩ 0
      (fun _ => 0) 0 [.setPos 1 2] 0 "boom" rfl (by decide)
    simpa using h
  · exact playback_continuation_amended.2.2 none 0 (fun _ => 0) 0
      ⟨0, "kpress", [("key", .jstr "key:nope")]⟩ "key:nope" (Or.inl rfl) rfl rfl
  · exact playback_continuation_amended.2.2 none 0 (fun _ => 0) 0
      ⟨0, "krelease", [("key", .jstr "key:nope")]⟩ "key:nope" (Or.inr rfl)
      rfl rfl
